import Mathlib

/-!
Verification development for the `grape` Go library (package `grape`):
declarative request-parameter validation/binding (`params.go`) and
struct-to-map presentation (`Entity` / `Present`).

The Go code is shallowly embedded: Go's `interface{}` universe of
JSON-decoded values becomes the inductive `Value` (JSON numbers that the
standard decoder produces as `float64` are modelled as rationals `ℚ`, so
that truncation toward zero is exact; native Go `int` values, which a
caller can place in the raw map directly, are modelled by a separate
constructor `vint`).  Go maps (`map[string]interface{}`) are modelled as
association lists with first-match lookup and replace-or-append insertion,
which matches the semantics of Go map indexing and assignment; iteration
order of a Go map is unspecified, the model fixes the list order.

The two external collaborators that `params.go` calls — the
`go-playground/validator` rule engine (`validate.Var`) and the standard
library JSON text parser used for string-typed JSON fields
(`json.Unmarshal` on a `string` value) — are out of scope per the spec and
are passed in as opaque parameters (structure `Ext`).  The
marshal/unmarshal round-trip that `validateJSON` performs on an
already-decoded `map[string]interface{}` is modelled concretely by
`jsonNorm` (its only observable effect on such data: native ints become
JSON numbers, i.e. floats).
-/

namespace Grape

/-- Value models a JSON-decoded Go `interface{}` value: `nil`, `bool`,
native `int`, `float64` (as an exact rational), `string`,
`[]interface{}` and `map[string]interface{}` (as an association list). -/
inductive Value where
  | vnull : Value
  | vbool (b : Bool) : Value
  | vint (n : Int) : Value
  | vfloat (q : ℚ) : Value
  | vstr (s : String) : Value
  | varr (xs : List Value) : Value
  | vmap (m : List (String × Value)) : Value

/-- AList models a Go `map[string]interface{}`. -/
abbrev AList := List (String × Value)

/-- lookupA models Go map indexing `m[k]` together with its `ok` flag:
`some v` when the key is present (even when the stored value is `nil`). -/
def lookupA : AList → String → Option Value
  | [], _ => none
  | (k, v) :: rest, key => if k = key then some v else lookupA rest key

/-- insertA models Go map assignment `m[k] = v`: replaces the binding when
the key is present, otherwise appends it. -/
def insertA : AList → String → Value → AList
  | [], key, v => [(key, v)]
  | (k, w) :: rest, key, v =>
    if k = key then (key, v) :: rest else (k, w) :: insertA rest key v

/-- FieldType models the string-typed Go `FieldType`; `tOther s` covers
every string that is not one of the eleven declared constants (including
the zero value `""` of a descriptor whose type was never set), which the
`switch` statements in `params.go` send to their `default` branch. -/
inductive FieldType where
  | tString | tInteger | tFloat | tBigDecimal | tNumeric
  | tDate | tDateTime | tTime | tBoolean | tJSON | tSlice
  | tOther (s : String)
deriving DecidableEq

/-- Param models the Go struct `Param` (`params.go`): field name, declared
type, validation tag, required-on mode list, optional nested schema
(`*Params`, i.e. its field list), and slice element type. -/
inductive Param where
  | mk (name : String) (ty : FieldType) (validateTag : String)
       (requiredOn : List String) (schema : Option (List Param))
       (sliceType : FieldType) : Param

/-- Params.Fields is modelled directly as the list of descriptors. -/
abbrev Schema := List Param

def Param.name : Param → String
  | .mk n _ _ _ _ _ => n

def Param.ty : Param → FieldType
  | .mk _ t _ _ _ _ => t

def Param.validateTag : Param → String
  | .mk _ _ v _ _ _ => v

def Param.requiredOn : Param → List String
  | .mk _ _ _ r _ _ => r

def Param.schema : Param → Option Schema
  | .mk _ _ _ _ s _ => s

def Param.sliceType : Param → FieldType
  | .mk _ _ _ _ _ st => st

/-- BindErr models the `fmt.Errorf` error values of `params.go` as a
structured type, one constructor per format string; `fieldWrap` and
`elemWrap` are the `%w`-wrapping messages, and `external` is an error
produced by the third-party rule engine (its message text). -/
inductive BindErr where
  | missingRequired (field : String) (mode : String) : BindErr
  | mustBe (field : String) (what : String) : BindErr
  | elemMustBeObject (field : String) : BindErr
  | fieldWrap (field : String) (inner : BindErr) : BindErr
  | elemWrap (field : String) (inner : BindErr) : BindErr
  | external (msg : String) : BindErr
deriving DecidableEq

/-- Failure distinguishes a returned Go `error` from a runtime panic
(`validateJSON` performs an unchecked type assertion that can panic). -/
inductive Failure where
  | err (e : BindErr) : Failure
  | panicked (msg : String) : Failure
deriving DecidableEq

/-- Ext bundles the two external collaborators: `validatorVar tag v`
models `validate.Var(v, tag)` (`none` = pass, `some msg` = rule
violation), and `parseJSONText s` models `json.Unmarshal([]byte(s), &x)`
on a JSON text (`none` = parse error). -/
structure Ext where
  validatorVar : String → Value → Option String
  parseJSONText : String → Option Value

/-- runTag applies the external rule engine exactly as the Go code guards
it: `if f.Validate != "" { if err := validate.Var(v, f.Validate); ... }`,
wrapping a violation as "field '<name>' validation failed: %w". -/
def runTag (ext : Ext) (tag : String) (fieldName : String) (v : Value) :
    Except Failure Unit :=
  if tag = "" then .ok ()
  else
    match ext.validatorVar tag v with
    | none => .ok ()
    | some msg => .error (.err (.fieldWrap fieldName (.external msg)))

mutual

/-- jsonNorm models the observable effect of `json.Marshal` followed by
`json.Unmarshal` into `interface{}` on an already-JSON-decoded value: every
native int becomes a JSON number (float), containers are normalized
recursively, and all other values are unchanged. -/
def jsonNorm : Value → Value
  | .vint n => .vfloat (n : ℚ)
  | .varr xs => .varr (jsonNormList xs)
  | .vmap m => .vmap (jsonNormMap m)
  | v => v

def jsonNormList : List Value → List Value
  | [] => []
  | v :: rest => jsonNorm v :: jsonNormList rest

def jsonNormMap : List (String × Value) → List (String × Value)
  | [] => []
  | (k, v) :: rest => (k, jsonNorm v) :: jsonNormMap rest

end

/-- goTrunc models Go's float-to-int conversion `int(vv)`: truncation
toward zero (exact on the rational model; `Int.div` is T-division). -/
def goTrunc (q : ℚ) : Int := q.num.tdiv q.den

/-- formatFixed10 models `fmt.Sprintf("%.10f", vv)` on the rational model
of a float: the value rounded to ten decimal places, printed with a fixed
ten-digit fractional part. -/
def formatFixed10 (q : ℚ) : String :=
  let scaled : Int := round (q * 10000000000)
  let sign := if scaled < 0 then "-" else ""
  let a := scaled.natAbs
  let intPart := a / 10000000000
  let fracPart := a % 10000000000
  let fracStr := toString fracPart
  let pad := String.mk (List.replicate (10 - fracStr.length) '0')
  sign ++ toString intPart ++ "." ++ pad ++ fracStr

/-- isGoSpace models `unicode.IsSpace` on the code points that
`strings.TrimSpace` can meet here: '\t', '\n', vertical tab, form feed,
'\r', ' ', NEL (U+0085) and NBSP (U+00A0), exactly Go's Latin-1 space
set. -/
def isGoSpace (c : Char) : Bool :=
  c.toNat = 9 ∨ c.toNat = 10 ∨ c.toNat = 11 ∨ c.toNat = 12 ∨ c.toNat = 13 ∨
    c.toNat = 32 ∨ c.toNat = 133 ∨ c.toNat = 160

/-- goTrimSpace models `strings.TrimSpace`: drop leading and trailing
space characters. -/
def goTrimSpace (s : String) : String :=
  String.mk (((s.data.dropWhile isGoSpace).reverse.dropWhile isGoSpace).reverse)

/-- isRequiredOn models the loop over `f.RequiredOn` in `params.go`: the
field is required for `mode` when some entry, after `strings.TrimSpace`,
equals `mode`. -/
def isRequiredOn (f : Param) (mode : String) : Bool :=
  f.requiredOn.any (fun r => goTrimSpace r = mode)

/-- passthrough models the final loop of both `BindAndValidate` and
`validateJSON`: `for k, v := range raw { if _, ok := out[k]; !ok { out[k] = v } }`
(appending models map assignment of a key that is checked absent). -/
def passthrough (raw : AList) (out : AList) : AList :=
  match raw with
  | [] => out
  | (k, v) :: rest =>
    match lookupA out k with
    | some _ => passthrough rest out
    | none => passthrough rest (out ++ [(k, v)])

/-- wrapFieldErr models `fmt.Errorf("field '%s' validation failed: %w", f.Name, err)`
applied to an error returned by a nested `validateJSON` call; a Go panic is
not wrapped — it propagates unchanged. -/
def wrapFieldErr (fieldName : String) : Failure → Failure
  | .err e => .err (.fieldWrap fieldName e)
  | .panicked m => .panicked m

/-- wrapElemErr models `fmt.Errorf("element in '%s' validation failed: %w", f.Name, err)`. -/
def wrapElemErr (fieldName : String) : Failure → Failure
  | .err e => .err (.elemWrap fieldName e)
  | .panicked m => .panicked m

/-- sizeOf_schema_lt justifies termination of the engines: a nested schema
is a structural subterm of its field descriptor. -/
theorem Param.sizeOf_schema_lt {f : Param} {s : Schema} (h : f.schema = some s) :
    sizeOf s < sizeOf f := by
  cases f with
  | mk n t v r sc st =>
    simp only [Param.schema] at h
    subst h
    simp
    omega

mutual

/-- bindAndValidate models `(*Params).BindAndValidate(raw, mode)`: the
per-field loop (`bindLoop`) followed by extra-key passthrough.  An
`Except.error` result models Go's `return nil, err` — the error carries no
output map. -/
def bindAndValidate (ext : Ext) (fields : Schema) (raw : AList) (mode : String) :
    Except Failure AList :=
  match bindLoop ext fields raw mode [] with
  | .error e => .error e
  | .ok out => .ok (passthrough raw out)

/-- bindLoop models the `for _, f := range p.Fields` loop of
`BindAndValidate`, threading the partially built output map `out`. -/
def bindLoop (ext : Ext) (fields : Schema) (raw : AList) (mode : String)
    (out : AList) : Except Failure AList :=
  match fields with
  | [] => .ok out
  | f :: rest =>
    match lookupA raw f.name with
    | none =>
      if isRequiredOn f mode then
        .error (.err (.missingRequired f.name mode))
      else
        bindLoop ext rest raw mode out
    | some val =>
      match bindFieldVal ext f val mode with
      | .error e => .error e
      | .ok v => bindLoop ext rest raw mode (insertA out f.name v)

/-- bindFieldVal models the `switch f.Type` statement of `BindAndValidate`
applied to a value that is present in the raw map; the `.ok` result is the
value stored into `out[f.Name]`. -/
def bindFieldVal (ext : Ext) (f : Param) (val : Value) (mode : String) :
    Except Failure Value :=
  match f.ty with
  | .tString =>
    match val with
    | .vstr s =>
      match runTag ext f.validateTag f.name (.vstr s) with
      | .error e => .error e
      | .ok _ => .ok (.vstr s)
    | _ => .error (.err (.mustBe f.name "string"))
  | .tInteger =>
    match val with
    | .vfloat q =>
      match runTag ext f.validateTag f.name (.vint (goTrunc q)) with
      | .error e => .error e
      | .ok _ => .ok (.vint (goTrunc q))
    | .vint n => .ok (.vint n)
    | _ => .error (.err (.mustBe f.name "integer"))
  | .tFloat =>
    match val with
    | .vfloat q =>
      match runTag ext f.validateTag f.name (.vfloat q) with
      | .error e => .error e
      | .ok _ => .ok (.vfloat q)
    | _ => .error (.err (.mustBe f.name "float"))
  | .tBigDecimal =>
    match val with
    | .vstr s =>
      match runTag ext f.validateTag f.name (.vstr s) with
      | .error e => .error e
      | .ok _ => .ok (.vstr s)
    | .vfloat q => .ok (.vstr (formatFixed10 q))
    | _ => .error (.err (.mustBe f.name "bigdecimal (string or float)"))
  | .tNumeric =>
    match val with
    | .vfloat q =>
      match runTag ext f.validateTag f.name (.vfloat q) with
      | .error e => .error e
      | .ok _ => .ok (.vfloat q)
    | .vstr s =>
      match runTag ext f.validateTag f.name (.vstr s) with
      | .error e => .error e
      | .ok _ => .ok (.vstr s)
    | _ => .error (.err (.mustBe f.name "numeric (float or string)"))
  | .tDate =>
    match val with
    | .vstr s =>
      match runTag ext f.validateTag f.name (.vstr s) with
      | .error e => .error e
      | .ok _ => .ok (.vstr s)
    | _ => .error (.err (.mustBe f.name "date string"))
  | .tDateTime =>
    match val with
    | .vstr s =>
      match runTag ext f.validateTag f.name (.vstr s) with
      | .error e => .error e
      | .ok _ => .ok (.vstr s)
    | _ => .error (.err (.mustBe f.name "datetime string"))
  | .tTime =>
    match val with
    | .vstr s =>
      match runTag ext f.validateTag f.name (.vstr s) with
      | .error e => .error e
      | .ok _ => .ok (.vstr s)
    | _ => .error (.err (.mustBe f.name "time string"))
  | .tBoolean =>
    match val with
    | .vbool b => .ok (.vbool b)
    | _ => .error (.err (.mustBe f.name "boolean"))
  | .tJSON =>
    match val with
    | .vmap m =>
      match h : f.schema with
      | some s =>
        match validateJSON ext s m mode with
        | .error e => .error (wrapFieldErr f.name e)
        | .ok nested => .ok (.vmap nested)
      | none => .ok (.vmap m)
    | .varr xs => .ok (.varr xs)
    | .vstr s =>
      match ext.parseJSONText s with
      | none => .error (.err (.mustBe f.name "valid JSON"))
      | some parsed => .ok parsed
    | _ => .error (.err (.mustBe f.name "json (object, array, or json string)"))
  | .tSlice =>
    match val with
    | .varr xs =>
      match h : f.schema with
      | some s =>
        if f.sliceType = .tJSON then
          match sliceLoop ext s f.name xs mode with
          | .error e => .error e
          | .ok arr => .ok (.varr arr)
        else .ok (.varr xs)
      | none => .ok (.varr xs)
    | _ => .error (.err (.mustBe f.name "array"))
  | .tOther _ => .ok val

/-- sliceLoop models the `for _, elem := range svals` loop of the `Slice`
case: every element must be an object and is validated against the nested
schema. -/
def sliceLoop (ext : Ext) (s : Schema) (fieldName : String) (elems : List Value)
    (mode : String) : Except Failure (List Value) :=
  match elems with
  | [] => .ok []
  | elem :: rest =>
    match elem with
    | .vmap m =>
      match validateJSON ext s m mode with
      | .error e => .error (wrapElemErr fieldName e)
      | .ok nested =>
        match sliceLoop ext s fieldName rest mode with
        | .error e => .error e
        | .ok arr => .ok (.vmap nested :: arr)
    | _ => .error (.err (.elemMustBeObject fieldName))

/-- validateJSON models `(*Params).validateJSON(raw, mode)`: the
marshal/unmarshal round-trip (`jsonNormMap`), the reduced per-field loop
(`jsonLoop`), then extra-key passthrough over the normalized map. -/
def validateJSON (ext : Ext) (fields : Schema) (raw : AList) (mode : String) :
    Except Failure AList :=
  match jsonLoop ext fields (jsonNormMap raw) mode [] with
  | .error e => .error e
  | .ok out => .ok (passthrough (jsonNormMap raw) out)
termination_by (sizeOf fields, 3, 0)

/-- jsonLoop models the `for _, f := range p.Fields` loop of `validateJSON`. -/
def jsonLoop (ext : Ext) (fields : Schema) (parsed : AList) (mode : String)
    (out : AList) : Except Failure AList :=
  match fields with
  | [] => .ok out
  | f :: rest =>
    match lookupA parsed f.name with
    | none =>
      if isRequiredOn f mode then
        .error (.err (.missingRequired f.name mode))
      else
        jsonLoop ext rest parsed mode out
    | some val =>
      match jsonFieldVal ext f val mode with
      | .error e => .error e
      | .ok v => jsonLoop ext rest parsed mode (insertA out f.name v)
termination_by (sizeOf fields, 2, 0)

/-- jsonFieldVal models the `switch f.Type` statement of `validateJSON`:
only `String`, `Integer` and `JSON` have cases; every other type falls to
`default: out[f.Name] = val`.  The `JSON`-with-schema case performs the
unchecked assertion `val.(map[string]interface{})`, which panics when the
value is not an object. -/
def jsonFieldVal (ext : Ext) (f : Param) (val : Value) (mode : String) :
    Except Failure Value :=
  match f, val with
  | .mk n .tString vt _ _ _, .vstr s =>
    match runTag ext vt n (.vstr s) with
    | .error e => .error e
    | .ok _ => .ok (.vstr s)
  | .mk n .tString _ _ _ _, _ => .error (.err (.mustBe n "string"))
  | .mk _ .tInteger _ _ _ _, .vfloat q => .ok (.vint (goTrunc q))
  | .mk _ .tInteger _ _ _ _, .vint n => .ok (.vint n)
  | .mk n .tInteger _ _ _ _, _ => .error (.err (.mustBe n "integer"))
  | .mk n .tJSON _ _ (some s) _, .vmap m =>
    match validateJSON ext s m mode with
    | .error e => .error (wrapFieldErr n e)
    | .ok nested => .ok (.vmap nested)
  | .mk _ .tJSON _ _ (some _) _, _ =>
    .error (.panicked "interface conversion: interface \x7b\x7d is not map[string]interface \x7b\x7d")
  | .mk _ .tJSON _ _ none _, v => .ok v
  | _, v => .ok v
termination_by (sizeOf f, 1, 0)
decreasing_by
  exact Prod.Lex.left _ _ (by simp_arith)

end

/-- Value.isNull models the Go test `val == nil` on an `interface{}`. -/
def Value.isNull : Value → Bool
  | .vnull => true
  | _ => false

/-- fieldOutcome is the standalone result of processing one field
descriptor of `BindAndValidate` against the raw map: `.ok none` when the
field is absent and not required (skipped), `.ok (some v)` when a value is
bound, `.error` when the field fails.  A loop iteration depends only on
`raw`, never on the output built so far, so this is well-defined. -/
def fieldOutcome (ext : Ext) (f : Param) (raw : AList) (mode : String) :
    Except Failure (Option Value) :=
  match lookupA raw f.name with
  | none =>
    if isRequiredOn f mode then
      .error (.err (.missingRequired f.name mode))
    else
      .ok none
  | some val =>
    match bindFieldVal ext f val mode with
    | .error e => .error e
    | .ok v => .ok (some v)

/-- firstError is the error of the first failing field in schema order, if
any. -/
def firstError (ext : Ext) (fields : Schema) (raw : AList) (mode : String) :
    Option Failure :=
  match fields with
  | [] => none
  | f :: rest =>
    match fieldOutcome ext f raw mode with
    | .error e => some e
    | .ok _ => firstError ext rest raw mode

/-! ### Schema builder (`NewParams`, `Requires`, `Optional`, chained setters) -/

/-- freshRequires models the descriptor literal built by `Requires`:
`Param{Name: name, RequiredOn: []string{}}` (every other field at its zero
value). -/
def freshRequires (name : String) : Param :=
  Param.mk name (.tOther "") "" [] none (.tOther "")

/-- freshOptional models the descriptor literal built by `Optional`:
`Param{Name: name}` (a nil `RequiredOn` slice, which ranges like an empty
one). -/
def freshOptional (name : String) : Param :=
  Param.mk name (.tOther "") "" [] none (.tOther "")

/-- BuilderState models a `*FieldBuilder`: the parent schema's field list
and the builder's local descriptor copy. -/
structure BuilderState where
  parentFields : Schema
  param : Param

/-- requiresB models `(*Params).Requires`: append a fresh descriptor and
hand back a builder for it. -/
def requiresB (fields : Schema) (name : String) : BuilderState :=
  { parentFields := fields ++ [freshRequires name], param := freshRequires name }

/-- optionalB models `(*Params).Optional`. -/
def optionalB (fields : Schema) (name : String) : BuilderState :=
  { parentFields := fields ++ [freshOptional name], param := freshOptional name }

/-- updateParent models `(*FieldBuilder).updateParent`: overwrite the first
descriptor in the parent list whose name equals the builder's descriptor
name; no match leaves the list unchanged. -/
def updateParent : Schema → Param → Schema
  | [], _ => []
  | f :: rest, p => if f.name = p.name then p :: rest else f :: updateParent rest p

def Param.setTy : Param → FieldType → Param
  | .mk n _ v r s st, t => .mk n t v r s st

def Param.setValidateTag : Param → String → Param
  | .mk n t _ r s st, v => .mk n t v r s st

def Param.addRequiredOn : Param → List String → Param
  | .mk n t v r s st, endpoints => .mk n t v (r ++ endpoints) s st

def Param.setSchema : Param → Schema → Param
  | .mk n t v r _ st, s => .mk n t v r (some s) st

def Param.setSliceOf : Param → FieldType → Option Schema → Param
  | .mk n _ v r _ _, elemTy, s => .mk n .tSlice v r s elemTy

/-- applySetter models the common shape of every chained setter
(`On`, `String`, `Integer`, ..., `Validate`, `WithSchema`, `SliceOf`):
mutate the builder's local descriptor, then call `updateParent`. -/
def applySetter (st : BuilderState) (f : Param → Param) : BuilderState :=
  let p := f st.param
  { parentFields := updateParent st.parentFields p, param := p }

/-- onB models `(*FieldBuilder).On(endpoints...)`. -/
def onB (st : BuilderState) (endpoints : List String) : BuilderState :=
  applySetter st (fun p => p.addRequiredOn endpoints)

/-- tyB models the eleven type setters `String()`, `Integer()`, ...,
`Slice()`, each of which stores its `FieldType` constant. -/
def tyB (st : BuilderState) (t : FieldType) : BuilderState :=
  applySetter st (fun p => p.setTy t)

/-- validateB models `(*FieldBuilder).Validate(tag)`. -/
def validateB (st : BuilderState) (tag : String) : BuilderState :=
  applySetter st (fun p => p.setValidateTag tag)

/-- withSchemaB models `(*FieldBuilder).WithSchema(s)`. -/
def withSchemaB (st : BuilderState) (s : Schema) : BuilderState :=
  applySetter st (fun p => p.setSchema s)

/-- sliceOfB models `(*FieldBuilder).SliceOf(t, s)`. -/
def sliceOfB (st : BuilderState) (t : FieldType) (s : Option Schema) : BuilderState :=
  applySetter st (fun p => p.setSliceOf t s)

/-- updateParentSpec restates `updateParent` per the spec's words: locate
the first descriptor whose name matches and overwrite it at its index;
otherwise leave the list unchanged. -/
def updateParentSpec (fields : Schema) (p : Param) : Schema :=
  match fields.findIdx? (fun g => g.name == p.name) with
  | some i => fields.set i p
  | none => fields

/-! ### `Input.ToModel` and `toSnakeCase` -/

/-- lowerGo models `r - 'A' + 'a'` on an upper-case ASCII letter. -/
def lowerGo (c : Char) : Char := Char.ofNat (c.toNat + 32)

/-- snakeAux walks the characters of the string carrying the previous
character (the Go code reads the previous byte `str[i-1]`; for ASCII the
two agree, and the final byte of a multi-byte rune is never in `a`..`z`,
so carrying the previous character is equivalent). -/
def snakeAux : Option Char → List Char → List Char
  | _, [] => []
  | prev, c :: rest =>
    if 'A' ≤ c ∧ c ≤ 'Z' then
      (match prev with
       | some p => if 'a' ≤ p ∧ p ≤ 'z' then ['_', lowerGo c] else [lowerGo c]
       | none => [lowerGo c]) ++ snakeAux (some c) rest
    else
      c :: snakeAux (some c) rest

/-- toSnakeCase models the Go `toSnakeCase` (PascalCase to snake_case). -/
def toSnakeCase (s : String) : String :=
  if s = "" then "" else String.mk (snakeAux none s.data)

/-- stringsEqualFold models the Go helper of the same name: the struct
field name, snake-cased, equals the JSON key. -/
def stringsEqualFold (structField jsonKey : String) : Bool :=
  toSnakeCase structField = jsonKey

/-- GoTy is the universe of destination struct field types the model
covers (scalar fields of a GORM-style record). -/
inductive GoTy where
  | tyInt | tyFloat64 | tyString | tyBool
deriving DecidableEq

/-- MField models one destination struct field under reflection: its Go
name, whether it is settable (exported), its type, and its current value. -/
structure MField where
  fname : String
  canSet : Bool
  fty : GoTy
  fval : Value

/-- typeOfVal is the dynamic Go type of a bound value, within the modelled
universe; `none` stands for the types (`[]interface{}`,
`map[string]interface{}`) that are neither assignable nor convertible to
any scalar destination field. -/
def typeOfVal : Value → Option GoTy
  | .vint _ => some .tyInt
  | .vfloat _ => some .tyFloat64
  | .vstr _ => some .tyString
  | .vbool _ => some .tyBool
  | _ => none

/-- convertibleTo models `reflect.Type.ConvertibleTo` on the scalar
universe: identical types, the two numeric conversions, and Go's
integer-to-string conversion. -/
def convertibleTo (vt ft : GoTy) : Bool :=
  vt = ft ∨ (vt = .tyInt ∧ ft = .tyFloat64) ∨ (vt = .tyFloat64 ∧ ft = .tyInt) ∨
    (vt = .tyInt ∧ ft = .tyString)

/-- intToStringGo models Go's `string(rune(n))` conversion: the character
of the code point, or U+FFFD for an invalid code point. -/
def intToStringGo (n : Int) : String :=
  if 0 ≤ n ∧ n < 1114112 ∧ ¬(55296 ≤ n ∧ n < 57344) then
    String.mk [Char.ofNat n.toNat]
  else
    String.mk [Char.ofNat 65533]

/-- convertVal models `reflect.Value.Convert` on the modelled universe
(identity when the types already agree). -/
def convertVal (v : Value) (ft : GoTy) : Value :=
  match v, ft with
  | .vint n, .tyFloat64 => .vfloat (n : ℚ)
  | .vint n, .tyString => .vstr (intToStringGo n)
  | .vfloat q, .tyInt => .vint (goTrunc q)
  | _, _ => v

/-- findFieldIdx models `reflect.Value.FieldByNameFunc` with the
`stringsEqualFold` matcher: the unique matching field's index; zero or
several matches yield an invalid `reflect.Value` (`none`). -/
def findFieldIdx (r : List MField) (k : String) : Option Nat :=
  if r.countP (fun f => stringsEqualFold f.fname k) = 1 then
    r.findIdx? (fun f => stringsEqualFold f.fname k)
  else
    none

/-- toModelStep models one iteration of the `for k, val := range i` loop
of `ToModel`. -/
def toModelStep (r : List MField) (kv : String × Value) : List MField :=
  match findFieldIdx r kv.1 with
  | none => r
  | some i =>
    match r.get? i with
    | none => r
    | some fld =>
      if !fld.canSet then r
      else if kv.2.isNull then r
      else
        match typeOfVal kv.2 with
        | none => r
        | some vt =>
          if vt = fld.fty then r.set i { fld with fval := kv.2 }
          else if convertibleTo vt fld.fty then r.set i { fld with fval := convertVal kv.2 fld.fty }
          else r

/-- DstArg models the dynamic shape of the `dst interface{}` argument of
`ToModel`: a nil pointer, a non-pointer, a non-nil pointer to a non-struct,
or a non-nil pointer to a struct (its reflected field list). -/
inductive DstArg where
  | nilPtr : DstArg
  | nonPtr : DstArg
  | ptrToNonStruct : DstArg
  | ptrToStruct (r : List MField) : DstArg

/-- toModel models `(Input).ToModel(dst)`; an `Except.error` is a Go
panic carrying its message.  A non-nil pointer to a non-struct passes the
guard, and panics inside `reflect.Value.FieldByNameFunc` at the first
input entry — so it survives an empty input. -/
def toModel (input : AList) (dst : DstArg) : Except String (List MField) :=
  match dst with
  | .nilPtr => .error "dst must be non-nil pointer"
  | .nonPtr => .error "dst must be non-nil pointer"
  | .ptrToNonStruct =>
    match input with
    | [] => .ok []
    | _ :: _ => .error "reflect: FieldByNameFunc of non-struct type"
  | .ptrToStruct r => .ok (input.foldl toModelStep r)

/-! ### Presentation engine (`Entity`, `Present`, `serializeNested`) -/

/-- RVal models a Go `any` value on the presentation side under
reflection: nil interface, scalars, a nil or non-nil pointer, a struct
value (its reflected name/value field list), a slice, and a
`map[string]any`. -/
inductive RVal where
  | rnil : RVal
  | rbool (b : Bool) : RVal
  | rint (n : Int) : RVal
  | rfloat (q : ℚ) : RVal
  | rstr (s : String) : RVal
  | rptrNil : RVal
  | rptr (v : RVal) : RVal
  | rstruct (fields : List (String × RVal)) : RVal
  | rslice (xs : List RVal) : RVal
  | rmap (m : List (String × RVal)) : RVal

/-- Opts models the `H` options map handed to inclusion predicates. -/
abbrev Opts := List (String × RVal)

/-- OutH models the output `H` map being built by `Present`. -/
abbrev OutH := List (String × RVal)

/-- lookupR models map/field lookup by name for `RVal` association lists
(struct field names are unique, so first-match is exact). -/
def lookupR : List (String × RVal) → String → Option RVal
  | [], _ => none
  | (k, v) :: rest, key => if k = key then some v else lookupR rest key

/-- insertR models Go map assignment `out[k] = v` on an `H` map. -/
def insertR : List (String × RVal) → String → RVal → List (String × RVal)
  | [], key, v => [(key, v)]
  | (k, w) :: rest, key, v =>
    if k = key then (key, v) :: rest else (k, w) :: insertR rest key v

mutual

/-- isZeroR models `reflect.Value.IsZero`: zero scalars, nil pointers and
nil interfaces are zero; a struct is zero when all its fields are.  Model
restriction: slices and maps are treated as non-nil (hence non-zero). -/
def isZeroR : RVal → Bool
  | .rnil => true
  | .rbool b => !b
  | .rint n => n = 0
  | .rfloat q => q = 0
  | .rstr s => s = ""
  | .rptrNil => true
  | .rptr _ => false
  | .rstruct fl => isZeroRFields fl
  | .rslice _ => false
  | .rmap _ => false

def isZeroRFields : List (String × RVal) → Bool
  | [] => true
  | (_, v) :: rest => isZeroR v && isZeroRFields rest

end

/-- isPtrNilR models `fieldVal.Kind() == reflect.Ptr && fieldVal.IsNil()`. -/
def isPtrNilR : RVal → Bool
  | .rptrNil => true
  | _ => false

/-- isNilR models the Go test `obj == nil` on an `any` value. -/
def RVal.isNilR : RVal → Bool
  | .rnil => true
  | _ => false

/-- kindStructOrPtrR models `rv.Kind() == reflect.Struct || rv.Kind() == reflect.Ptr`. -/
def kindStructOrPtrR : RVal → Bool
  | .rstruct _ => true
  | .rptr _ => true
  | .rptrNil => true
  | _ => false

mutual

/-- EntityField models the Go struct `EntityField`: source field name,
optional nested presenter, optional transform function, output JSON key,
optional inclusion predicate, default value (`rnil` when unconfigured),
and the documentation-only description/example. -/
inductive EntityField where
  | mk (name : String) (presenter : Option Entity)
       (transform : Option (RVal → RVal)) (jsonKey : String)
       (cond : Option (RVal → Opts → Bool)) (dflt : RVal)
       (desc : String) (exampleVal : RVal) : EntityField

/-- Entity models the Go struct `Entity`: the ordered presenter field
list. -/
inductive Entity where
  | mk (fields : List EntityField) : Entity

end

def EntityField.name : EntityField → String
  | .mk n _ _ _ _ _ _ _ => n

def EntityField.presenter : EntityField → Option Entity
  | .mk _ p _ _ _ _ _ _ => p

def EntityField.transform : EntityField → Option (RVal → RVal)
  | .mk _ _ t _ _ _ _ _ => t

def EntityField.jsonKey : EntityField → String
  | .mk _ _ _ k _ _ _ _ => k

def EntityField.cond : EntityField → Option (RVal → Opts → Bool)
  | .mk _ _ _ _ c _ _ _ => c

def EntityField.dflt : EntityField → RVal
  | .mk _ _ _ _ _ d _ _ => d

def Entity.fields : Entity → List EntityField
  | .mk fl => fl

/-- derefR models `v := reflect.ValueOf(obj)` followed by one pointer
dereference: a nil pointer dereferences to an invalid `reflect.Value`
(`none`). -/
def derefR : RVal → Option RVal
  | .rptr x => some x
  | .rptrNil => none
  | v => some v

/-- condSkips models `f.Condition != nil && !f.Condition(obj, options)`:
the field is skipped when an inclusion predicate is set and returns
false. -/
def condSkips (conda : Option (RVal → Opts → Bool)) (obj : RVal) (opts : Opts) : Bool :=
  match conda with
  | some c => !c obj opts
  | none => false

/-- presentResolve models the value-resolution block of `Present`: a
transform function's result takes precedence; otherwise the source field
is looked up by name on the dereferenced struct, and an invalid field, a
nil pointer, or a zero value resolves to the descriptor's default.
`none` models the reflection panic of `FieldByName` on an invalid or
non-struct value. -/
def presentResolve (obj : RVal) (v? : Option RVal) (tfn : Option (RVal → RVal))
    (n : String) (dflt : RVal) : Option RVal :=
  match tfn with
  | some fn => some (fn obj)
  | none =>
    match v? with
    | some (.rstruct fl) =>
      match lookupR fl n with
      | none => some dflt
      | some fv => if isPtrNilR fv || isZeroR fv then some dflt else some fv
    | _ => none

/-- fieldZeroOrAbsent captures the test that routes `Present` to the
default: the source field is absent (invalid), a nil pointer, or zero. -/
def fieldZeroOrAbsent (fl : List (String × RVal)) (n : String) : Bool :=
  match lookupR fl n with
  | none => true
  | some fv => isPtrNilR fv || isZeroR fv

/-- sizeOf_presenter_lt justifies termination of the presentation engine:
a nested presenter is a structural subterm of its field descriptor. -/
theorem EntityField.sizeOf_presenter_lt {f : EntityField} {sub : Entity}
    (h : f.presenter = some sub) : sizeOf sub < sizeOf f := by
  cases f with
  | mk n p t k c d ds ex =>
    simp only [EntityField.presenter] at h
    subst h
    simp
    omega

/-- sizeOf_fields_lt: the field list is a structural subterm of its
entity. -/
theorem Entity.sizeOf_fields_lt (p : Entity) : sizeOf p.fields < sizeOf p := by
  cases p with
  | mk fl =>
    simp [Entity.fields]

mutual

/-- Present models the Go `Present(obj, p, options...)`: empty map for a
nil object, one pointer dereference, then the per-field loop.  A `none`
result models a reflection panic (`FieldByName` on a non-struct or
invalid value). -/
def Present (obj : RVal) (p : Entity) (opts : Opts) : Option OutH :=
  match obj with
  | .rnil => some []
  | _ => presentFields obj (derefR obj) p.fields opts []
termination_by (sizeOf p, 1, 0)
decreasing_by
  exact Prod.Lex.left _ _ (Entity.sizeOf_fields_lt p)

/-- presentFields models the `for _, f := range p.Fields` loop of
`Present`, threading the output map; `v?` is the (possibly invalid)
dereferenced struct value.  The descriptor is destructured in the
pattern (and the nested-presenter test hoisted into it) purely so the
recursion is visibly structural; the branch bodies follow the Go loop
body via `condSkips` and `presentResolve`. -/
def presentFields (obj : RVal) (v? : Option RVal) :
    List EntityField → Opts → OutH → Option OutH
  | [], _, out => some out
  | .mk n (some sub) tfn key conda dflt _ _ :: rest, opts, out =>
    if condSkips conda obj opts then
      presentFields obj v? rest opts out
    else
      match presentResolve obj v? tfn n dflt with
      | none => none
      | some val0 =>
        match serializeNested val0 sub opts with
        | none => none
        | some val1 => presentFields obj v? rest opts (insertR out key val1)
  | .mk n none tfn key conda dflt _ _ :: rest, opts, out =>
    if condSkips conda obj opts then
      presentFields obj v? rest opts out
    else
      match presentResolve obj v? tfn n dflt with
      | none => none
      | some val0 => presentFields obj v? rest opts (insertR out key val0)
termination_by fields _ _ => (sizeOf fields, 0, 0)

/-- serializeNested models the Go `serializeNested`: dispatch on the
resolved value's reflect kind. -/
def serializeNested (val : RVal) (presenter : Entity) (opts : Opts) : Option RVal :=
  match val with
  | .rnil => some .rnil
  | .rslice xs =>
    match serializeSliceElems presenter xs opts with
    | none => none
    | some arr => some (.rslice arr)
  | .rptrNil =>
    match Present .rptrNil presenter opts with
    | none => none
    | some out => some (.rmap out)
  | .rptr x =>
    match Present (.rptr x) presenter opts with
    | none => none
    | some out => some (.rmap out)
  | .rstruct fl =>
    match Present (.rstruct fl) presenter opts with
    | none => none
    | some out => some (.rmap out)
  | .rmap m =>
    match serializeMapEntries presenter m opts with
    | none => none
    | some m' => some (.rmap m')
  | v => some v
termination_by (sizeOf presenter, 3, 0)

/-- serializeSliceElems models the slice loop of `serializeNested`: a
pointer element is presented directly, a value element is presented
through a freshly created pointer (both dereference to the element). -/
def serializeSliceElems (presenter : Entity) (xs : List RVal) (opts : Opts) :
    Option (List RVal) :=
  match xs with
  | [] => some []
  | item :: rest =>
    match (match item with
           | .rptr x => Present (.rptr x) presenter opts
           | .rptrNil => Present .rptrNil presenter opts
           | _ => Present (.rptr item) presenter opts) with
    | none => none
    | some out =>
      match serializeSliceElems presenter rest opts with
      | none => none
      | some arr => some (.rmap out :: arr)
termination_by (sizeOf presenter, 2, sizeOf xs)

/-- serializeMapEntries models the map case of `serializeNested`: each
struct- or pointer-kinded entry value is re-presented, scalar entries are
kept. -/
def serializeMapEntries (presenter : Entity) (m : List (String × RVal))
    (opts : Opts) : Option (List (String × RVal)) :=
  match m with
  | [] => some []
  | (k, v) :: rest =>
    match (if kindStructOrPtrR v then
             match Present v presenter opts with
             | none => none
             | some out => some (RVal.rmap out)
           else some v) with
    | none => none
    | some v' =>
      match serializeMapEntries presenter rest opts with
      | none => none
      | some rest' => some ((k, v') :: rest')
termination_by (sizeOf presenter, 2, sizeOf m)

end

/-! ### Supporting lemmas -/

theorem lookupA_insertA (m : AList) (k : String) (v : Value) (key : String) :
    lookupA (insertA m k v) key = if k = key then some v else lookupA m key := by
  induction m with
  | nil => simp [insertA, lookupA]
  | cons hd tl ih =>
    obtain ⟨k', v'⟩ := hd
    simp only [insertA]
    by_cases hk : k' = k
    · subst hk
      simp only [if_pos rfl, lookupA]
      by_cases hkey : k' = key
      · simp [hkey]
      · simp [hkey]
    · rw [if_neg hk]
      simp only [lookupA]
      by_cases hkey : k' = key
      · have hkne : ¬(k = key) := fun hc => hk (hkey ▸ hc ▸ rfl)
        simp [hkey, hkne]
      · simp [hkey, ih]

theorem lookupA_append (a b : AList) (key : String) :
    lookupA (a ++ b) key =
      (match lookupA a key with
       | some v => some v
       | none => lookupA b key) := by
  induction a with
  | nil => simp [lookupA]
  | cons hd tl ih =>
    obtain ⟨k', v'⟩ := hd
    by_cases hkey : k' = key
    · subst hkey
      simp [lookupA]
    · simp [lookupA, if_neg hkey, ih]

/-- passthrough never disturbs a key already bound in the output map. -/
theorem passthrough_preserves (raw : AList) (out : AList) (k : String) (v : Value)
    (h : lookupA out k = some v) : lookupA (passthrough raw out) k = some v := by
  induction raw generalizing out with
  | nil => simpa [passthrough] using h
  | cons hd tl ih =>
    obtain ⟨k', v'⟩ := hd
    simp only [passthrough]
    cases hlk : lookupA out k' with
    | some w => exact ih out h
    | none =>
      apply ih
      rw [lookupA_append]
      simp [h]

/-- For a key absent from the output map, passthrough yields exactly the
raw map's binding (or continued absence). -/
theorem passthrough_absent (raw : AList) (out : AList) (k : String)
    (h : lookupA out k = none) :
    lookupA (passthrough raw out) k = lookupA raw k := by
  induction raw generalizing out with
  | nil => simpa [passthrough, lookupA] using h
  | cons hd tl ih =>
    obtain ⟨k', v'⟩ := hd
    simp only [passthrough]
    by_cases hkk : k' = k
    · subst hkk
      rw [h]
      simp only [lookupA, if_pos rfl]
      apply passthrough_preserves
      rw [lookupA_append]
      simp [h, lookupA]
    · simp only [lookupA, if_neg hkk]
      cases hlk : lookupA out k' with
      | some w => exact ih out h
      | none =>
        apply ih
        rw [lookupA_append]
        rw [h]
        simp [lookupA, hkk]

/-- Keys bound by the field loop are always schema field names. -/
theorem bindLoop_undeclared_key_absent (ext : Ext) (fields : Schema) (raw : AList)
    (mode : String) (acc out : AList) (k : String)
    (hok : bindLoop ext fields raw mode acc = .ok out)
    (hacc : lookupA acc k = none)
    (hk : k ∉ fields.map Param.name) :
    lookupA out k = none := by
  induction fields generalizing acc with
  | nil =>
    rw [bindLoop] at hok
    cases hok
    exact hacc
  | cons f rest ih =>
    simp only [List.map_cons, List.mem_cons, not_or] at hk
    rw [bindLoop] at hok
    cases hval : lookupA raw f.name with
    | none =>
      simp only [hval] at hok
      by_cases hreq : isRequiredOn f mode
      · simp [hreq] at hok
      · rw [if_neg ?_] at hok
        · exact ih acc hok hacc hk.2
        · simpa using hreq
    | some val =>
      simp only [hval] at hok
      cases hbf : bindFieldVal ext f val mode with
      | error e => simp only [hbf] at hok; cases hok
      | ok v =>
        simp only [hbf] at hok
        refine ih _ hok ?_ hk.2
        rw [lookupA_insertA]
        rw [if_neg ?_]
        · exact hacc
        · intro hcontra
          exact hk.1 hcontra.symm

/-- extTriv is a trivial instantiation of the external collaborators: a
rule engine that accepts everything and a JSON text parser that rejects
everything (no string-typed JSON field is exercised with it). -/
def extTriv : Ext :=
  { validatorVar := fun _ _ => none, parseJSONText := fun _ => none }

/-! ### C1 — extra-field passthrough -/

/-- C1: for every schema, mode and raw input map on which `BindAndValidate`
succeeds, every key of the raw map that is not the name of any declared
field appears in the bound output mapped to the identical, unmodified
value. -/
theorem c1_extra_key_passthrough (ext : Ext) (fields : Schema) (raw : AList)
    (mode : String) (out : AList) (k : String) (v : Value)
    (hok : bindAndValidate ext fields raw mode = .ok out)
    (hv : lookupA raw k = some v)
    (hk : k ∉ fields.map Param.name) :
    lookupA out k = some v := by
  rw [bindAndValidate] at hok
  cases hbl : bindLoop ext fields raw mode [] with
  | error e => simp only [hbl] at hok; cases hok
  | ok out0 =>
    simp only [hbl] at hok
    cases hok
    have h0 : lookupA out0 k = none :=
      bindLoop_undeclared_key_absent ext fields raw mode [] out0 k hbl rfl hk
    rw [passthrough_absent raw out0 k h0]
    exact hv

/-- C1 witness: a concrete schema, raw map and undeclared key "extra". -/
theorem c1_witness :
    lookupA
      (passthrough [("name", .vstr "Jo"), ("extra", .vint 7)] [("name", .vstr "Jo")])
      "extra" = some (.vint 7) := by
  apply c1_extra_key_passthrough extTriv
    [Param.mk "name" .tString "" ["create"] none (.tOther "")]
    [("name", .vstr "Jo"), ("extra", .vint 7)] "create" _ "extra" (.vint 7)
  · rfl
  · rfl
  · decide

/-! ### C2 — required-on semantics (corrected: entries are whitespace-trimmed) -/

/-- A rule-engine failure is always reported wrapped, never as a bare
missing-required error. -/
theorem runTag_error_shape (ext : Ext) (tag fieldName : String) (v : Value)
    (e : Failure) (h : runTag ext tag fieldName v = .error e) :
    ∃ msg, e = .err (.fieldWrap fieldName (.external msg)) := by
  rw [runTag] at h
  by_cases htag : tag = ""
  · simp [htag] at h
  · rw [if_neg htag] at h
    cases hvv : ext.validatorVar tag v with
    | none => rw [hvv] at h; cases h
    | some msg =>
      rw [hvv] at h
      cases h
      exact ⟨msg, rfl⟩

/-- Slice-element validation never produces a bare missing-required error
(element failures are wrapped or are object-type errors). -/
theorem sliceLoop_error_not_missing (ext : Ext) (s : Schema) (fn : String)
    (elems : List Value) (mode : String) (e : Failure)
    (h : sliceLoop ext s fn elems mode = .error e) :
    ∀ n m', e ≠ .err (.missingRequired n m') := by
  induction elems generalizing e with
  | nil => rw [sliceLoop] at h; cases h
  | cons elem rest ih =>
    intro n m' hc
    subst hc
    cases elem with
    | vmap m =>
      rw [sliceLoop] at h
      cases hvj : validateJSON ext s m mode with
      | error e' =>
        simp only [hvj] at h
        cases h' : wrapElemErr fn e' with
        | err e2 =>
          rw [h'] at h
          cases e' <;> simp [wrapElemErr] at h' <;> simp [← h'] at h
        | panicked msg =>
          rw [h'] at h
          cases h
      | ok nested =>
        simp only [hvj] at h
        cases hsl : sliceLoop ext s fn rest mode with
        | error e2 =>
          simp only [hsl] at h
          cases h
          exact ih _ hsl n m' rfl
        | ok arr => simp only [hsl] at h; cases h
    | vnull => simp [sliceLoop] at h
    | vbool b => simp [sliceLoop] at h
    | vint k => simp [sliceLoop] at h
    | vfloat q => simp [sliceLoop] at h
    | vstr str => simp [sliceLoop] at h
    | varr xs => simp [sliceLoop] at h

/-- A field that is present in the raw map never fails with a bare
missing-required error: every error of the type switch is a wrong-type
error, a wrapped rule violation, a wrapped nested error, or a panic. -/
theorem bindFieldVal_error_not_missing (ext : Ext) (f : Param) (val : Value)
    (mode : String) (e : Failure)
    (h : bindFieldVal ext f val mode = .error e) :
    ∀ n m', e ≠ .err (.missingRequired n m') := by
  intro n m' hc
  subst hc
  cases f with
  | mk nm ty vt ro sc st =>
    cases ty <;> cases val <;>
      simp only [bindFieldVal, Param.ty, Param.name, Param.validateTag, Param.schema,
        Param.sliceType] at h <;>
      try cases h
    all_goals repeat (split at h)
    all_goals try cases h
    all_goals first
      | (rename_i heq
         obtain ⟨msg, hmsg⟩ := runTag_error_shape _ _ _ _ _ heq
         cases hmsg)
      | (rename_i e' heq
         cases e' <;> simp [wrapFieldErr] at h)
      | (rename_i heq
         exact sliceLoop_error_not_missing _ _ _ _ _ _ heq n m' rfl)

/-- A bare missing-required error always names a key that is absent from
the raw map. -/
theorem bindLoop_missing_implies_absent (ext : Ext) (fields : Schema) (raw : AList)
    (mode : String) (acc : AList) (n m' : String)
    (h : bindLoop ext fields raw mode acc = .error (.err (.missingRequired n m'))) :
    lookupA raw n = none := by
  induction fields generalizing acc with
  | nil => rw [bindLoop] at h; cases h
  | cons f rest ih =>
    rw [bindLoop] at h
    cases hval : lookupA raw f.name with
    | none =>
      simp only [hval] at h
      by_cases hreq : isRequiredOn f mode
      · simp only [hreq, if_true] at h
        cases h
        exact hval
      · simp only [hreq, if_false] at h
        exact ih _ h
    | some val =>
      simp only [hval] at h
      cases hbf : bindFieldVal ext f val mode with
      | error e' =>
        simp only [hbf] at h
        cases h
        exact absurd rfl (bindFieldVal_error_not_missing _ _ _ _ _ hbf n m')
      | ok v =>
        simp only [hbf] at h
        exact ih _ h

/-- The field loop never binds a key that is absent from the raw map. -/
theorem bindLoop_absent_key (ext : Ext) (fields : Schema) (raw : AList)
    (mode : String) (acc out : AList) (nkey : String)
    (hok : bindLoop ext fields raw mode acc = .ok out)
    (hraw : lookupA raw nkey = none)
    (hacc : lookupA acc nkey = none) :
    lookupA out nkey = none := by
  induction fields generalizing acc with
  | nil =>
    rw [bindLoop] at hok
    cases hok
    exact hacc
  | cons f rest ih =>
    rw [bindLoop] at hok
    cases hval : lookupA raw f.name with
    | none =>
      simp only [hval] at hok
      by_cases hreq : isRequiredOn f mode
      · simp [hreq] at hok
      · rw [if_neg ?_] at hok
        · exact ih _ hok hacc
        · simpa using hreq
    | some val =>
      simp only [hval] at hok
      cases hbf : bindFieldVal ext f val mode with
      | error e => simp only [hbf] at hok; cases hok
      | ok v =>
        simp only [hbf] at hok
        refine ih _ hok ?_
        rw [lookupA_insertA]
        rw [if_neg ?_]
        · exact hacc
        · intro hcontra
          rw [hcontra] at hval
          rw [hval] at hraw
          cases hraw

/-- A declared field whose standalone outcome fails forces some first
error on the whole loop. -/
theorem firstError_of_mem_error (ext : Ext) (fields : Schema) (raw : AList)
    (mode : String) (f : Param) (ef : Failure)
    (hf : f ∈ fields) (hout : fieldOutcome ext f raw mode = .error ef) :
    ∃ e, firstError ext fields raw mode = some e := by
  induction fields with
  | nil => cases hf
  | cons g rest ih =>
    rw [firstError]
    cases hg : fieldOutcome ext g raw mode with
    | error e => exact ⟨e, rfl⟩
    | ok o =>
      rcases List.mem_cons.mp hf with hfg | hfr
      · subst hfg
        rw [hout] at hg
        cases hg
      · exact ih hfr

/-! ### C3 — first failing field aborts with only an error -/

/-- A first failing field forces the loop into that field's error, for any
partially built output. -/
theorem bindLoop_error_of_firstError (ext : Ext) (fields : Schema) (raw : AList)
    (mode : String) (e : Failure)
    (h : firstError ext fields raw mode = some e) (acc : AList) :
    bindLoop ext fields raw mode acc = .error e := by
  induction fields generalizing acc with
  | nil => simp [firstError] at h
  | cons f rest ih =>
    rw [firstError] at h
    rw [bindLoop]
    cases hval : lookupA raw f.name with
    | none =>
      simp only [fieldOutcome, hval] at h
      by_cases hreq : isRequiredOn f mode
      · simp only [hreq, if_true] at h
        cases h
        simp [hval, hreq]
      · simp only [hreq, if_false] at h
        simp only [hval, hreq, if_false]
        exact ih h acc
    | some val =>
      simp only [fieldOutcome, hval] at h
      cases hbf : bindFieldVal ext f val mode with
      | error e' =>
        simp only [hbf] at h
        cases h
        simp [hval, hbf]
      | ok v =>
        simp only [hbf] at h
        simp only [hval, hbf]
        exact ih h _

/-- With no failing field the loop succeeds, for any partially built
output. -/
theorem bindLoop_ok_of_firstError_none (ext : Ext) (fields : Schema) (raw : AList)
    (mode : String)
    (h : firstError ext fields raw mode = none) (acc : AList) :
    ∃ out, bindLoop ext fields raw mode acc = .ok out := by
  induction fields generalizing acc with
  | nil => exact ⟨acc, by rw [bindLoop]⟩
  | cons f rest ih =>
    rw [firstError] at h
    rw [bindLoop]
    cases hval : lookupA raw f.name with
    | none =>
      simp only [fieldOutcome, hval] at h
      by_cases hreq : isRequiredOn f mode
      · simp [hreq] at h
      · simp only [hreq, if_false] at h
        simp only [hval, hreq, if_false]
        exact ih h acc
    | some val =>
      simp only [fieldOutcome, hval] at h
      cases hbf : bindFieldVal ext f val mode with
      | error e' => simp [hbf] at h
      | ok v =>
        simp only [hbf] at h
        simp only [hval, hbf]
        exact ih h _

/-- C3: whenever any field fails, `BindAndValidate` returns an error with
no output map beside it (the `Except.error` constructor carries no map,
modelling `return nil, err`), and the first failing field in schema order
determines the reported error; with no failing field the call returns an
output map. -/
theorem c3_first_failing_field_determines_error (ext : Ext) (fields : Schema)
    (raw : AList) (mode : String) :
    (∀ e, firstError ext fields raw mode = some e →
        bindAndValidate ext fields raw mode = Except.error e) ∧
    (firstError ext fields raw mode = none →
        ∃ out, bindAndValidate ext fields raw mode = Except.ok out) := by
  constructor
  · intro e h
    rw [bindAndValidate]
    rw [bindLoop_error_of_firstError ext fields raw mode e h []]
  · intro h
    obtain ⟨out, hout⟩ := bindLoop_ok_of_firstError_none ext fields raw mode h []
    rw [bindAndValidate]
    rw [hout]
    exact ⟨passthrough raw out, rfl⟩

/-- C3 witness: a concrete schema whose single integer field receives a
string; the wrong-type error of that first failing field is the result. -/
theorem c3_witness :
    firstError extTriv [Param.mk "a" .tInteger "" [] none (.tOther "")]
      [("a", .vstr "x")] "m" = some (.err (.mustBe "a" "integer")) ∧
    bindAndValidate extTriv [Param.mk "a" .tInteger "" [] none (.tOther "")]
      [("a", .vstr "x")] "m" = Except.error (.err (.mustBe "a" "integer")) :=
  ⟨rfl,
    (c3_first_failing_field_determines_error extTriv
      [Param.mk "a" .tInteger "" [] none (.tOther "")] [("a", .vstr "x")] "m").1
      _ rfl⟩

/-- C2 counterexample: the claim's membership reading of `requiredOn` is
false on the code.  The entry "create " does not contain the mode "create"
(so the claim's third conjunct demands the field be skipped without
error), yet `BindAndValidate` trims each entry with `strings.TrimSpace`
and fails with the missing-required error. -/
theorem c2_counterexample :
    (["create "].contains "create" = false) ∧
    bindAndValidate extTriv
      [Param.mk "name" (.tOther "") "" ["create "] none (.tOther "")] [] "create" =
      Except.error (.err (.missingRequired "name" "create")) :=
  ⟨by decide, rfl⟩

/-- C2 (amended): with membership of the mode in `requiredOn` read up to
`strings.TrimSpace` of each entry (which is what `isRequiredOn` models):
a required field absent from the raw map yields the missing-required
error naming the field and mode, and makes the whole call fail; a field
whose name is present never yields a bare missing-required error naming
it; a field absent and not required is skipped without error and is
absent from any successful output. -/
theorem c2_required_trimmed (ext : Ext) (fields : Schema) (raw : AList)
    (mode : String) (f : Param) (hf : f ∈ fields) :
    (lookupA raw f.name = none → isRequiredOn f mode = true →
      fieldOutcome ext f raw mode = .error (.err (.missingRequired f.name mode)) ∧
      ∃ e, bindAndValidate ext fields raw mode = .error e) ∧
    (∀ val, lookupA raw f.name = some val →
      ∀ m', bindAndValidate ext fields raw mode ≠
        Except.error (.err (.missingRequired f.name m'))) ∧
    (lookupA raw f.name = none → isRequiredOn f mode = false →
      fieldOutcome ext f raw mode = .ok none ∧
      ∀ out, bindAndValidate ext fields raw mode = .ok out →
        lookupA out f.name = none) := by
  refine ⟨?_, ?_, ?_⟩
  · intro habs hreq
    have houtcome : fieldOutcome ext f raw mode =
        .error (.err (.missingRequired f.name mode)) := by
      rw [fieldOutcome]
      simp [habs, hreq]
    refine ⟨houtcome, ?_⟩
    obtain ⟨e, hfe⟩ := firstError_of_mem_error ext fields raw mode f _ hf houtcome
    refine ⟨e, ?_⟩
    rw [bindAndValidate]
    rw [bindLoop_error_of_firstError ext fields raw mode e hfe []]
  · intro val hval m' hcontra
    rw [bindAndValidate] at hcontra
    cases hbl : bindLoop ext fields raw mode [] with
    | error e0 =>
      rw [hbl] at hcontra
      cases hcontra
      have habs := bindLoop_missing_implies_absent ext fields raw mode [] _ _ hbl
      rw [hval] at habs
      cases habs
    | ok out0 => simp only [hbl] at hcontra; cases hcontra
  · intro habs hreq
    constructor
    · rw [fieldOutcome]
      simp [habs, hreq]
    · intro out hout
      rw [bindAndValidate] at hout
      cases hbl : bindLoop ext fields raw mode [] with
      | error e0 => simp only [hbl] at hout; cases hout
      | ok out0 =>
        simp only [hbl] at hout
        cases hout
        have h0 : lookupA out0 f.name = none :=
          bindLoop_absent_key ext fields raw mode [] out0 f.name hbl habs rfl
        rw [passthrough_absent raw out0 f.name h0]
        exact habs

/-- C2 witness: a field required on "create" (exact entry, no
whitespace), absent from an empty raw map. -/
theorem c2_witness :
    fieldOutcome extTriv (Param.mk "name" (.tOther "") "" ["create"] none (.tOther ""))
      [] "create" = .error (.err (.missingRequired "name" "create")) ∧
    ∃ e, bindAndValidate extTriv
      [Param.mk "name" (.tOther "") "" ["create"] none (.tOther "")] [] "create" =
      Except.error e :=
  (c2_required_trimmed extTriv
    [Param.mk "name" (.tOther "") "" ["create"] none (.tOther "")] [] "create"
    (Param.mk "name" (.tOther "") "" ["create"] none (.tOther ""))
    (List.mem_singleton.mpr rfl)).1 rfl (by decide)

/-! ### C4 — nested validation is a reduced algorithm (corrected) -/

/-- Keys bound by the nested field loop are always schema field names. -/
theorem jsonLoop_undeclared_key_absent (ext : Ext) (fields : Schema) (parsed : AList)
    (mode : String) (acc out : AList) (k : String)
    (hok : jsonLoop ext fields parsed mode acc = .ok out)
    (hacc : lookupA acc k = none)
    (hk : k ∉ fields.map Param.name) :
    lookupA out k = none := by
  induction fields generalizing acc with
  | nil =>
    rw [jsonLoop] at hok
    cases hok
    exact hacc
  | cons f rest ih =>
    simp only [List.map_cons, List.mem_cons, not_or] at hk
    rw [jsonLoop] at hok
    cases hval : lookupA parsed f.name with
    | none =>
      simp only [hval] at hok
      by_cases hreq : isRequiredOn f mode
      · simp [hreq] at hok
      · rw [if_neg ?_] at hok
        · exact ih acc hok hacc hk.2
        · simpa using hreq
    | some val =>
      simp only [hval] at hok
      cases hbf : jsonFieldVal ext f val mode with
      | error e => simp only [hbf] at hok; cases hok
      | ok v =>
        simp only [hbf] at hok
        refine ih _ hok ?_ hk.2
        rw [lookupA_insertA]
        rw [if_neg ?_]
        · exact hacc
        · intro hcontra
          exact hk.1 hcontra.symm

/-- C4 counterexample: the same nested map that the top-level algorithm
rejects (a string in a float-typed field) is accepted unchanged by the
nested engine, so nested validation is NOT the same per-field algorithm
as `BindAndValidate`. -/
theorem c4_counterexample :
    bindAndValidate extTriv
      [Param.mk "j" .tJSON "" []
        (some [Param.mk "f" .tFloat "" [] none (.tOther "")]) (.tOther "")]
      [("j", .vmap [("f", .vstr "nope")])] "m" =
      Except.ok [("j", .vmap [("f", .vstr "nope")])] ∧
    bindAndValidate extTriv [Param.mk "f" .tFloat "" [] none (.tOther "")]
      [("f", .vstr "nope")] "m" =
      Except.error (.err (.mustBe "f" "float")) := by
  constructor
  · have hnested : validateJSON extTriv
        [Param.mk "f" .tFloat "" [] none (.tOther "")]
        [("f", .vstr "nope")] "m" = .ok [("f", .vstr "nope")] := by
      rw [validateJSON]
      simp [jsonLoop, jsonFieldVal, jsonNormMap, jsonNorm, lookupA, insertA,
        passthrough, isRequiredOn, Param.requiredOn, Param.name]
    rw [bindAndValidate]
    simp [bindLoop, bindFieldVal, lookupA, insertA, passthrough, Param.name,
      Param.ty, Param.schema, isRequiredOn, Param.requiredOn, hnested]
  · rfl

/-- C4 (amended): nested `validateJSON` normalizes through the JSON
round-trip, uses the same mode, isolates its output, and passes unknown
keys through like the top level, but applies a REDUCED per-field
algorithm: string fields are handled exactly as at top level; integer
fields coerce floats by truncation WITHOUT consulting the validation tag;
structured-JSON mapping values agree with the top level (recursing when a
nested schema is present); every other declared type is passed through
unchecked. -/
theorem c4_nested_reduced (ext : Ext) (f : Param) (val : Value) (mode : String) :
    (f.ty = .tString → jsonFieldVal ext f val mode = bindFieldVal ext f val mode) ∧
    (f.ty = .tInteger → ∀ q, jsonFieldVal ext f (.vfloat q) mode = .ok (.vint (goTrunc q))) ∧
    (f.ty = .tJSON → ∀ m, val = .vmap m →
      jsonFieldVal ext f val mode = bindFieldVal ext f val mode) ∧
    (f.ty ≠ .tString → f.ty ≠ .tInteger → f.ty ≠ .tJSON →
      jsonFieldVal ext f val mode = .ok val) ∧
    (∀ fields raw out k v,
      validateJSON ext fields raw mode = .ok out →
      lookupA (jsonNormMap raw) k = some v →
      k ∉ fields.map Param.name →
      lookupA out k = some v) := by
  refine ⟨?_, ?_, ?_, ?_, ?_⟩
  · intro hty
    cases f with
    | mk nm ty vt ro sc st =>
      simp only [Param.ty] at hty
      subst hty
      cases val <;>
        simp [jsonFieldVal, bindFieldVal, Param.ty, Param.name, Param.validateTag]
  · intro hty q
    cases f with
    | mk nm ty vt ro sc st =>
      simp only [Param.ty] at hty
      subst hty
      simp [jsonFieldVal]
  · intro hty m hv
    subst hv
    cases f with
    | mk nm ty vt ro sc st =>
      simp only [Param.ty] at hty
      subst hty
      cases sc with
      | none => simp [jsonFieldVal, bindFieldVal, Param.ty, Param.schema]
      | some s =>
        cases hvj : validateJSON ext s m mode with
        | error e =>
          simp [jsonFieldVal, bindFieldVal, Param.ty, Param.schema, Param.name, hvj]
        | ok nested =>
          simp [jsonFieldVal, bindFieldVal, Param.ty, Param.schema, Param.name, hvj]
  · intro hs hi hj
    cases f with
    | mk nm ty vt ro sc st =>
      simp only [Param.ty] at hs hi hj
      cases ty <;> simp_all <;> simp [jsonFieldVal]
  · intro fields raw out k v hok hv hk
    rw [validateJSON] at hok
    cases hjl : jsonLoop ext fields (jsonNormMap raw) mode [] with
    | error e => simp only [hjl] at hok; cases hok
    | ok out0 =>
      simp only [hjl] at hok
      cases hok
      have h0 : lookupA out0 k = none :=
        jsonLoop_undeclared_key_absent ext fields (jsonNormMap raw) mode [] out0 k hjl rfl hk
      rw [passthrough_absent (jsonNormMap raw) out0 k h0]
      exact hv

/-- C4 witness: the string-field agreement at a concrete input. -/
theorem c4_witness :
    jsonFieldVal extTriv (Param.mk "s" .tString "" [] none (.tOther ""))
      (.vstr "a") "m" =
    bindFieldVal extTriv (Param.mk "s" .tString "" [] none (.tOther ""))
      (.vstr "a") "m" :=
  (c4_nested_reduced extTriv (Param.mk "s" .tString "" [] none (.tOther ""))
    (.vstr "a") "m").1 rfl

/-! ### C7 — integer coercion -/

/-- C7: an integer-typed field accepts a float by truncation toward zero
(provided the validation tag, if any, passes on the truncated value —
the code runs the tag on the float path), accepts a native int unchanged,
and rejects every other value with the wrong-type error. -/
theorem c7_integer_coercion (ext : Ext) (f : Param) (mode : String)
    (hty : f.ty = .tInteger) :
    (∀ q : ℚ,
      (f.validateTag = "" ∨
        ext.validatorVar f.validateTag (.vint (goTrunc q)) = none) →
      bindFieldVal ext f (.vfloat q) mode = .ok (.vint (goTrunc q))) ∧
    (∀ n : Int, bindFieldVal ext f (.vint n) mode = .ok (.vint n)) ∧
    (∀ val : Value, (∀ q, val ≠ .vfloat q) → (∀ n, val ≠ .vint n) →
      bindFieldVal ext f val mode = .error (.err (.mustBe f.name "integer"))) := by
  cases f with
  | mk nm ty vt ro sc st =>
    simp only [Param.ty] at hty
    subst hty
    refine ⟨?_, ?_, ?_⟩
    · intro q hv
      simp only [bindFieldVal, runTag, Param.validateTag, Param.name]
      rcases hv with h | h
      · simp only [Param.validateTag] at h
        simp [h, Param.ty]
      · simp only [Param.validateTag] at h
        by_cases hvt : vt = ""
        · simp [hvt, Param.ty]
        · simp [hvt, h, Param.ty]
    · intro n
      simp [bindFieldVal, Param.ty]
    · intro val hnf hni
      cases val <;> simp [bindFieldVal, Param.name, Param.ty]
      · exact absurd rfl (hni _)
      · exact absurd rfl (hnf _)

/-- C7 witness: 5.0 binds to 5, 5.9 binds to 5 (truncation), a native 7
binds to 7, and a string is a wrong-type error. -/
theorem c7_witness :
    bindFieldVal extTriv (Param.mk "age" .tInteger "" [] none (.tOther ""))
      (.vfloat 5) "m" = .ok (.vint 5) ∧
    bindFieldVal extTriv (Param.mk "age" .tInteger "" [] none (.tOther ""))
      (.vfloat ((59 : ℚ) / 10)) "m" = .ok (.vint 5) ∧
    bindFieldVal extTriv (Param.mk "age" .tInteger "" [] none (.tOther ""))
      (.vint 7) "m" = .ok (.vint 7) ∧
    bindFieldVal extTriv (Param.mk "age" .tInteger "" [] none (.tOther ""))
      (.vstr "5") "m" = .error (.err (.mustBe "age" "integer")) := by
  have hc := c7_integer_coercion extTriv
    (Param.mk "age" .tInteger "" [] none (.tOther "")) "m" rfl
  refine ⟨?_, ?_, hc.2.1 7, hc.2.2 (.vstr "5") (by intro q h; cases h) (by intro n h; cases h)⟩
  · have h5 := hc.1 5 (Or.inl rfl)
    rw [show goTrunc 5 = 5 by decide] at h5
    exact h5
  · have h59 := hc.1 ((59 : ℚ) / 10) (Or.inl rfl)
    rw [show goTrunc ((59 : ℚ) / 10) = 5 by
      rw [goTrunc, show ((59 : ℚ) / 10).num = 59 by norm_num,
        show ((59 : ℚ) / 10).den = 10 by norm_num]
      decide] at h59
    exact h59

/-! ### C10 — native ints bypass the validation tag -/

/-- extReject is a rule engine that rejects every value, to exhibit that
the tag is never consulted on the native-int path. -/
def extReject : Ext :=
  { validatorVar := fun _ _ => some "rejected", parseJSONText := fun _ => none }

/-- C10: for an integer field with a non-empty validation tag, a native
int is bound unchanged whatever the rule engine would say (the tag is
only consulted on the float path, whose outcome is exactly the rule
engine's verdict on the truncated value). -/
theorem c10_native_int_bypasses_validation (ext : Ext) (f : Param) (mode : String)
    (hty : f.ty = .tInteger) (htag : f.validateTag ≠ "") :
    (∀ n : Int, bindFieldVal ext f (.vint n) mode = .ok (.vint n)) ∧
    (∀ q : ℚ, bindFieldVal ext f (.vfloat q) mode =
      (match ext.validatorVar f.validateTag (.vint (goTrunc q)) with
       | some msg => .error (.err (.fieldWrap f.name (.external msg)))
       | none => .ok (.vint (goTrunc q)))) := by
  cases f with
  | mk nm ty vt ro sc st =>
    simp only [Param.ty] at hty
    subst hty
    simp only [Param.validateTag] at htag
    constructor
    · intro n
      simp [bindFieldVal, Param.ty]
    · intro q
      simp only [bindFieldVal, runTag, Param.validateTag, Param.name, Param.ty, if_neg htag]
      cases ext.validatorVar vt (.vint (goTrunc q)) <;> simp

/-- C10 witness: with a reject-all rule engine and tag "min=0,max=150",
the out-of-range native int 99999 still binds, while a float is rejected
by the same tag. -/
theorem c10_witness :
    bindFieldVal extReject
      (Param.mk "age" .tInteger "min=0,max=150" [] none (.tOther ""))
      (.vint 99999) "m" = .ok (.vint 99999) ∧
    bindFieldVal extReject
      (Param.mk "age" .tInteger "min=0,max=150" [] none (.tOther ""))
      (.vfloat 5) "m" = .error (.err (.fieldWrap "age" (.external "rejected"))) := by
  have hc := c10_native_int_bypasses_validation extReject
    (Param.mk "age" .tInteger "min=0,max=150" [] none (.tOther "")) "m" rfl (by decide)
  exact ⟨hc.1 99999, hc.2 5⟩

/-! ### C9 — unchecked type assertion in nested validation -/

/-- C9: inside `validateJSON` a structured-JSON field with a nested schema
type-asserts its value; on a non-mapping value (here an array) the call
panics — the result is the `Failure.panicked` constructor, which models a
Go runtime panic, not a returned `error` (those are the `Failure.err`
constructor, e.g. wrong-type errors). -/
theorem c9_nested_json_assertion_panics :
    validateJSON extTriv [Param.mk "inner" .tJSON "" [] (some []) (.tOther "")]
      [("inner", .varr [])] "m" =
      .error (.panicked "interface conversion: interface \x7b\x7d is not map[string]interface \x7b\x7d") := by
  rw [validateJSON]
  rw [jsonLoop]
  simp only [jsonNormMap, jsonNorm, jsonNormList, lookupA, Param.name]
  simp [jsonFieldVal]

/-! ### C5 — builder redefinition semantics (corrected: duplicates arise) -/

/-- C5 counterexample: `Requires("x").String()` followed by
`Requires("x").Integer()` yields TWO descriptors named "x" — the second
`Requires` appends a fresh descriptor instead of overwriting in place,
and the chained `Integer()` overwrites the first match, leaving the
fresh zero-typed duplicate behind. -/
theorem c5_counterexample :
    (tyB (requiresB (tyB (requiresB [] "x") .tString).parentFields "x")
        .tInteger).parentFields =
      [Param.mk "x" .tInteger "" [] none (.tOther ""),
       Param.mk "x" (.tOther "") "" [] none (.tOther "")] ∧
    ((tyB (requiresB (tyB (requiresB [] "x") .tString).parentFields "x")
        .tInteger).parentFields.countP (fun g => g.name == "x") = 2) :=
  ⟨rfl, rfl⟩

/-- C5 (amended): `Requires`/`Optional` unconditionally append a fresh
descriptor — even when the name is already declared — so names need not
be unique; each chained setter overwrites exactly the first descriptor
whose name matches the builder's (by a linear scan), leaving any later
duplicate untouched. -/
theorem c5_builder_append_and_first_match_update (fields : Schema) (name : String)
    (p : Param) :
    (requiresB fields name).parentFields = fields ++ [freshRequires name] ∧
    (optionalB fields name).parentFields = fields ++ [freshOptional name] ∧
    ((requiresB fields name).parentFields.length = fields.length + 1) ∧
    updateParent fields p = updateParentSpec fields p := by
  refine ⟨rfl, rfl, by simp [requiresB], ?_⟩
  induction fields with
  | nil => rfl
  | cons g rest ih =>
    rw [updateParent, updateParentSpec, List.findIdx?_cons]
    by_cases hg : g.name = p.name
    · simp [hg]
    · have hg' : (g.name == p.name) = false := by
        simp [hg]
      rw [hg']
      simp only [if_pos rfl, if_neg hg, Nat.zero_add]
      rw [ih]
      rw [updateParentSpec]
      cases hidx : rest.findIdx? (fun g' => g'.name == p.name) with
      | none => simp [hidx]
      | some i => simp [hidx]

/-! ### C6 — presentation default replaces zero values -/

theorem lookupR_insertR (m : List (String × RVal)) (k : String) (v : RVal)
    (key : String) :
    lookupR (insertR m k v) key = if k = key then some v else lookupR m key := by
  induction m with
  | nil => simp [insertR, lookupR]
  | cons hd tl ih =>
    obtain ⟨k', v'⟩ := hd
    simp only [insertR]
    by_cases hk : k' = k
    · subst hk
      simp only [if_pos rfl, lookupR]
      by_cases hkey : k' = key
      · simp [hkey]
      · simp [hkey]
    · rw [if_neg hk]
      simp only [lookupR]
      by_cases hkey : k' = key
      · have hkne : ¬(k = key) := fun hc => hk (hkey ▸ hc ▸ rfl)
        simp [hkey, hkne]
      · simp [hkey, ih]

/-- One presenter-loop step that returns an output ran the remaining
fields from some intermediate output. -/
theorem presentFields_cons_inv (obj : RVal) (v? : Option RVal) (g : EntityField)
    (rest : List EntityField) (opts : Opts) (out res : OutH)
    (h : presentFields obj v? (g :: rest) opts out = some res) :
    ∃ out₁, presentFields obj v? rest opts out₁ = some res := by
  cases g with
  | mk n pres tfn key conda dflt ds ex =>
    cases pres with
    | none =>
      rw [presentFields] at h
      by_cases hc : condSkips conda obj opts = true
      · simp only [hc, if_true] at h
        exact ⟨out, h⟩
      · have hc' : condSkips conda obj opts = false := by simpa using hc
        simp only [hc', Bool.false_eq_true, if_false] at h
        cases hr : presentResolve obj v? tfn n dflt with
        | none => simp only [hr] at h; cases h
        | some val0 =>
          simp only [hr] at h
          exact ⟨_, h⟩
    | some sub =>
      rw [presentFields] at h
      by_cases hc : condSkips conda obj opts = true
      · simp only [hc, if_true] at h
        exact ⟨out, h⟩
      · have hc' : condSkips conda obj opts = false := by simpa using hc
        simp only [hc', Bool.false_eq_true, if_false] at h
        cases hr : presentResolve obj v? tfn n dflt with
        | none => simp only [hr] at h; cases h
        | some val0 =>
          simp only [hr] at h
          cases hs : serializeNested val0 sub opts with
          | none => simp only [hs] at h; cases h
          | some val1 =>
            simp only [hs] at h
            exact ⟨_, h⟩

/-- Any prefix of the presenter loop that completes hands the remaining
fields some intermediate output. -/
theorem presentFields_prefix_inv (obj : RVal) (v? : Option RVal)
    (pre rest2 : List EntityField) (opts : Opts) (out res : OutH)
    (h : presentFields obj v? (pre ++ rest2) opts out = some res) :
    ∃ out₁, presentFields obj v? rest2 opts out₁ = some res := by
  induction pre generalizing out with
  | nil => exact ⟨out, h⟩
  | cons g pre' ih =>
    rw [List.cons_append] at h
    obtain ⟨out₁, h₁⟩ := presentFields_cons_inv obj v? g (pre' ++ rest2) opts out res h
    exact ih out₁ h₁

/-- Fields whose output keys differ from `key` never change what the
output maps `key` to. -/
theorem presentFields_other_keys (obj : RVal) (v? : Option RVal)
    (fields : List EntityField) (opts : Opts) (out res : OutH) (key : String)
    (hkeys : fields.all (fun g => g.jsonKey != key) = true)
    (h : presentFields obj v? fields opts out = some res) :
    lookupR res key = lookupR out key := by
  induction fields generalizing out with
  | nil =>
    rw [presentFields] at h
    cases h
    rfl
  | cons g rest ih =>
    simp only [List.all_cons, Bool.and_eq_true] at hkeys
    obtain ⟨hg, hrest⟩ := hkeys
    cases g with
    | mk n pres tfn gkey conda dflt ds ex =>
      simp only [EntityField.jsonKey, bne_iff_ne, ne_eq] at hg
      cases pres with
      | none =>
        rw [presentFields] at h
        by_cases hc : condSkips conda obj opts = true
        · simp only [hc, if_true] at h
          exact ih out hrest h
        · have hc' : condSkips conda obj opts = false := by simpa using hc
          simp only [hc', Bool.false_eq_true, if_false] at h
          cases hr : presentResolve obj v? tfn n dflt with
          | none => simp only [hr] at h; cases h
          | some val0 =>
            simp only [hr] at h
            rw [ih _ hrest h]
            rw [lookupR_insertR]
            rw [if_neg hg]
      | some sub =>
        rw [presentFields] at h
        by_cases hc : condSkips conda obj opts = true
        · simp only [hc, if_true] at h
          exact ih out hrest h
        · have hc' : condSkips conda obj opts = false := by simpa using hc
          simp only [hc', Bool.false_eq_true, if_false] at h
          cases hr : presentResolve obj v? tfn n dflt with
          | none => simp only [hr] at h; cases h
          | some val0 =>
            simp only [hr] at h
            cases hs : serializeNested val0 sub opts with
            | none => simp only [hs] at h; cases h
            | some val1 =>
              simp only [hs] at h
              rw [ih _ hrest h]
              rw [lookupR_insertR]
              rw [if_neg hg]

/-- A descriptor with no transform, no nested presenter, a passing (or
absent) condition, over a struct whose source field is absent, a nil
pointer, or zero, stores exactly its default and moves on. -/
theorem presentFields_step_default (obj : RVal) (rest : List EntityField)
    (opts : Opts) (out : OutH) (n key : String)
    (conda : Option (RVal → Opts → Bool)) (dflt : RVal) (ds : String) (ex : RVal)
    (fl : List (String × RVal))
    (hcond : condSkips conda obj opts = false)
    (hzero : fieldZeroOrAbsent fl n = true) :
    presentFields obj (some (.rstruct fl)) (.mk n none none key conda dflt ds ex :: rest)
        opts out =
      presentFields obj (some (.rstruct fl)) rest opts (insertR out key dflt) := by
  rw [presentFields]
  simp only [hcond]
  have hr : presentResolve obj (some (.rstruct fl)) none n dflt = some dflt := by
    rw [fieldZeroOrAbsent] at hzero
    rw [presentResolve]
    cases hlk : lookupR fl n with
    | none => simp [hlk]
    | some fv =>
      simp only [hlk] at hzero ⊢
      simp [hzero]
  simp [hr]

/-- C6: for a presenter descriptor with a configured (non-nil) default, no
transform function and no nested presenter, whose inclusion condition (if
any) passes, presenting a non-nil object whose dereferenced struct either
lacks the source field, holds a nil pointer there, or holds a zero value
there, stores the default under the output key (no later descriptor
reusing the key). -/
theorem c6_default_replaces_zero (obj : RVal) (p : Entity) (opts : Opts)
    (pre post : List EntityField) (n key : String)
    (conda : Option (RVal → Opts → Bool)) (dflt : RVal) (ds : String) (ex : RVal)
    (fl : List (String × RVal))
    (hfields : p.fields = pre ++ (.mk n none none key conda dflt ds ex) :: post)
    (hobjnn : obj.isNilR = false)
    (hobj : derefR obj = some (.rstruct fl))
    (hcond : condSkips conda obj opts = false)
    (hdflt : dflt.isNilR = false)
    (hzero : fieldZeroOrAbsent fl n = true)
    (hnodup : post.all (fun g => g.jsonKey != key) = true) :
    ∀ out, Present obj p opts = some out → lookupR out key = some dflt := by
  intro out hout
  have hP : Present obj p opts = presentFields obj (derefR obj) p.fields opts [] := by
    cases obj <;> simp [Present] <;> simp [RVal.isNilR] at hobjnn
  rw [hP, hfields, hobj] at hout
  obtain ⟨out₁, h₁⟩ := presentFields_prefix_inv obj (some (.rstruct fl)) pre _ opts [] out hout
  rw [presentFields_step_default obj post opts out₁ n key conda dflt ds ex fl hcond hzero] at h₁
  rw [presentFields_other_keys obj (some (.rstruct fl)) post opts _ out key hnodup h₁]
  rw [lookupR_insertR]
  rw [if_pos rfl]

/-- C6 witness: a struct whose `Age` field holds the zero value 0 presents
as the configured default 18. -/
theorem c6_witness :
    Present (.rstruct [("Age", .rint 0)])
      (.mk [.mk "Age" none none "age" none (.rint 18) "" .rnil]) [] =
      some [("age", .rint 18)] ∧
    lookupR [("age", .rint 18)] "age" = some (.rint 18) := by
  have hpres : Present (.rstruct [("Age", .rint 0)])
      (.mk [.mk "Age" none none "age" none (.rint 18) "" .rnil]) [] =
      some [("age", .rint 18)] := by
    rw [Present.eq_def]
    simp [presentFields, presentResolve, condSkips, derefR, lookupR,
      isZeroR, isPtrNilR, Entity.fields, insertR]
  refine ⟨hpres, ?_⟩
  exact c6_default_replaces_zero (.rstruct [("Age", .rint 0)])
    (.mk [.mk "Age" none none "age" none (.rint 18) "" .rnil]) []
    [] [] "Age" "age" none (.rint 18) "" .rnil [("Age", .rint 0)]
    rfl rfl rfl rfl rfl (by decide) rfl
    [("age", .rint 18)] hpres

/-! ### C8 — ToModel copy semantics (corrected: the abort condition) -/

/-- C8 counterexample: the claim's "aborts if and only if the destination
is not a non-null pointer to a mutable record" fails: a non-nil pointer
to a non-struct (e.g. `*int`) is not a pointer to a record, yet with an
empty input map `ToModel` returns normally — the reflection panic only
fires at the first field lookup. -/
theorem c8_counterexample :
    toModel [] .ptrToNonStruct = .ok [] ∧
    toModel [("a", .vint 1)] .ptrToNonStruct =
      .error "reflect: FieldByNameFunc of non-struct type" :=
  ⟨rfl, rfl⟩

/-- C8 (amended): `ToModel` panics exactly when the destination is a nil
pointer or a non-pointer, or is a non-nil pointer to a non-struct AND the
input map is non-empty; on a struct pointer it folds the per-entry copy
over the input, where each entry is copied to the unique field whose
snake-cased name equals the key (identical types assigned, convertible
types converted) and is skipped when the key matches no field or several,
the field is unexported, the value is null, or the types are neither
identical nor convertible. -/
theorem c8_tomodel (input : AList) (dst : DstArg) (r : List MField)
    (kv : String × Value) :
    ((∃ msg, toModel input dst = .error msg) ↔
      (dst = .nilPtr ∨ dst = .nonPtr ∨ (dst = .ptrToNonStruct ∧ input ≠ []))) ∧
    (toModel input (.ptrToStruct r) = .ok (input.foldl toModelStep r)) ∧
    (kv.2.isNull = true → toModelStep r kv = r) ∧
    (findFieldIdx r kv.1 = none → toModelStep r kv = r) ∧
    (∀ i fld, findFieldIdx r kv.1 = some i → r.get? i = some fld →
      fld.canSet = false → toModelStep r kv = r) ∧
    (∀ i fld vt, findFieldIdx r kv.1 = some i → r.get? i = some fld →
      fld.canSet = true → kv.2.isNull = false → typeOfVal kv.2 = some vt →
      (vt = fld.fty → toModelStep r kv = r.set i { fld with fval := kv.2 }) ∧
      (vt ≠ fld.fty → convertibleTo vt fld.fty = true →
        toModelStep r kv = r.set i { fld with fval := convertVal kv.2 fld.fty }) ∧
      (vt ≠ fld.fty → convertibleTo vt fld.fty = false → toModelStep r kv = r)) ∧
    (kv.2.isNull = false → typeOfVal kv.2 = none →
      ∀ i fld, findFieldIdx r kv.1 = some i → r.get? i = some fld →
        fld.canSet = true → toModelStep r kv = r) := by
  obtain ⟨k, v⟩ := kv
  refine ⟨?_, rfl, ?_, ?_, ?_, ?_, ?_⟩
  · cases dst with
    | nilPtr => simp [toModel]
    | nonPtr => simp [toModel]
    | ptrToNonStruct =>
      cases input with
      | nil => simp [toModel]
      | cons hd tl => simp [toModel]
    | ptrToStruct r' => simp [toModel]
  · intro hnull
    rw [toModelStep]
    cases hidx : findFieldIdx r k with
    | none => simp [hidx]
    | some i =>
      simp only [hidx]
      cases hget : r.get? i with
      | none => simp [hget]
      | some fld =>
        simp only [hget]
        by_cases hset : fld.canSet
        · simp [hset, hnull]
        · simp [hset]
  · intro hidx
    rw [toModelStep]
    simp [hidx]
  · intro i fld hidx hget hset
    rw [List.get?_eq_getElem?] at hget
    rw [toModelStep]
    simp [hidx, hget, hset]
  · intro i fld vt hidx hget hset hnull hty
    rw [List.get?_eq_getElem?] at hget
    refine ⟨?_, ?_, ?_⟩
    · intro heq
      rw [toModelStep]
      simp [hidx, hget, hset, hnull, hty, heq]
    · intro hne hconv
      rw [toModelStep]
      simp [hidx, hget, hset, hnull, hty, hne, hconv]
    · intro hne hconv
      rw [toModelStep]
      simp [hidx, hget, hset, hnull, hty, hne, hconv]
  · intro hnull hty i fld hidx hget hset
    rw [List.get?_eq_getElem?] at hget
    rw [toModelStep]
    simp [hidx, hget, hset, hnull, hty]

/-- C8 witness: a null input value is skipped, leaving the destination
field untouched. -/
theorem c8_witness :
    toModelStep [MField.mk "Age" true .tyInt (.vint 1)] ("age", .vnull) =
      [MField.mk "Age" true .tyInt (.vint 1)] :=
  (c8_tomodel [] .nilPtr [MField.mk "Age" true .tyInt (.vint 1)]
    ("age", .vnull)).2.2.1 rfl

end Grape
